import Mathlib

/-!
Shallow embedding of the COBOL copybook parser from `flask_copybook_ui.py`
(class `CopybookParser`: methods `parse`, `_parse_pic`, `generate_ddl`).

The Python code scans the input line by line.  Each line is first checked
for blank/comment, then matched against the regex
`^\s*(\d{2})\s+([A-Z0-9\-]+)(?:\s+(?:PIC|PICTURE)\s+([^\s.]+))?`
with `re.IGNORECASE`.  Matching lines without a captured PIC token push a
group onto a parent stack; lines with a PIC token emit a `Field` whose
parent is the stack top after popping all entries at a level >= the
line's level.  `_parse_pic` tries, in order, `9(P)V9(S)`, `9(N)`,
`[XA](N)` via `re.search`, and falls back to `VARCHAR(255)`.

The embedding models Python string semantics over ASCII (`\s` as the six
ASCII whitespace characters, `\d`/case-mapping restricted to ASCII); this
is faithful for all inputs considered here.
-/

set_option linter.unusedVariables false
set_option linter.unnecessarySeqFocus false
set_option linter.unnecessarySimpa false

namespace Copybook

/-- Python `\s` / `str.strip` whitespace (ASCII): space, tab, LF, CR, VT, FF. -/
def pySpace (c : Char) : Bool :=
  c == ' ' || c == '\t' || c == '\n' || c == '\r' || c == '\x0b' || c == '\x0c'

/-- Python `str.strip`: drop leading and trailing whitespace. -/
def pyStrip (l : List Char) : List Char :=
  ((l.dropWhile pySpace).reverse.dropWhile pySpace).reverse

/-- Python `content.split('\n')`. -/
def splitNl : List Char → List (List Char)
  | [] => [[]]
  | c :: rest =>
    if c == '\n' then [] :: splitNl rest
    else
      match splitNl rest with
      | [] => [[c]]
      | l :: ls => (c :: l) :: ls

/-- Characters admitted by the name group `[A-Z0-9\-]` under `re.IGNORECASE`:
letters of either case, digits, hyphen. -/
def nameChar (c : Char) : Bool := c.isAlpha || c.isDigit || c == '-'

/-- Numeric value of an ASCII digit. -/
def digitVal (c : Char) : Nat := c.toNat - 48

/-- Python `int` on a run of captured digits. -/
def digitsVal (ds : List Char) : Nat := ds.foldl (fun n c => 10 * n + digitVal c) 0

/-- Classification of one input line (spec section 4.1). -/
inductive LineClass where
  | skip : LineClass
  | group (level : Nat) (name : String) : LineClass
  | fieldDecl (level : Nat) (name : String) (pic : String) : LineClass
deriving DecidableEq

/-- Case-insensitive keyword match (keyword given in uppercase); returns the
remaining input on success. -/
def ciMatch : List Char → List Char → Option (List Char)
  | [], cs => some cs
  | _ :: _, [] => none
  | k :: ks, c :: cs => if c.toUpper == k then ciMatch ks cs else none

/-- After the `PIC`/`PICTURE` keyword: `\s+([^\s.]+)` — at least one space,
then a maximal nonempty run of non-space, non-period characters. -/
def picTail (cs : List Char) : Option (List Char) :=
  match cs with
  | [] => none
  | c :: _ =>
    if pySpace c then
      let tok := (cs.dropWhile pySpace).takeWhile (fun ch => !pySpace ch && ch != '.')
      if tok.isEmpty then none else some tok
    else none

/-- The optional regex group `(?:\s+(?:PIC|PICTURE)\s+([^\s.]+))?`, applied to
the input remaining after the name token.  The alternation tries `PIC`
first and backtracks to `PICTURE`, exactly as the regex engine does. -/
def picPart (cs : List Char) : Option (List Char) :=
  match cs with
  | [] => none
  | c :: _ =>
    if pySpace c then
      let cs1 := cs.dropWhile pySpace
      match ciMatch ['P', 'I', 'C'] cs1 with
      | some rest =>
        match picTail rest with
        | some tok => some tok
        | none =>
          match ciMatch ['P', 'I', 'C', 'T', 'U', 'R', 'E'] cs1 with
          | some rest2 => picTail rest2
          | none => none
      | none =>
        match ciMatch ['P', 'I', 'C', 'T', 'U', 'R', 'E'] cs1 with
        | some rest2 => picTail rest2
        | none => none
    else none

/-- After the two-digit level: `\s+([A-Z0-9\-]+)` then the optional PIC group. -/
def afterLevel (lvl : Nat) (rest : List Char) : Option (Nat × String × Option String) :=
  match rest with
  | [] => none
  | c :: _ =>
    if pySpace c then
      let rest1 := rest.dropWhile pySpace
      let nm := rest1.takeWhile nameChar
      if nm.isEmpty then none
      else some (lvl, String.mk nm, (picPart (rest1.drop nm.length)).map String.mk)
    else none

/-- `re.match` of the full line pattern: `^\s*(\d{2})\s+([A-Z0-9\-]+)(?:...)?`. -/
def matchDecl (cs : List Char) : Option (Nat × String × Option String) :=
  match cs.dropWhile pySpace with
  | d1 :: d2 :: rest =>
    if d1.isDigit && d2.isDigit then afterLevel (10 * digitVal d1 + digitVal d2) rest
    else none
  | _ => none

/-- The per-line classifier (source lines 27-47 control flow): blank and
comment lines and non-matching lines are skipped; a match without a PIC
capture is a group declaration; a match with a PIC capture is a field
declaration. -/
def classifyLine (line : List Char) : LineClass :=
  let stripped := pyStrip line
  if stripped.isEmpty then .skip
  else if stripped.head? = some '*' then .skip
  else
    match matchDecl line with
    | none => .skip
    | some (lvl, n, none) => .group lvl n
    | some (lvl, n, some p) => .fieldDecl lvl n p

/-- The classified lines of an input string. -/
def declsOf (content : String) : List LineClass :=
  (splitNl content.data).map classifyLine

/-! ### The PIC interpreter (`_parse_pic`) -/

/-- `pic.upper().strip()` (source line 63). -/
def normPic (pic : List Char) : List Char := pyStrip (pic.map Char.toUpper)

/-- Match `\((\d+)\)` at the head of the input; return the digit value and
the remaining input after the closing parenthesis. -/
def matchNumAt (cs : List Char) : Option (Nat × List Char) :=
  match cs with
  | '(' :: rest =>
    let ds := rest.takeWhile Char.isDigit
    if ds.isEmpty then none
    else
      match rest.drop ds.length with
      | ')' :: r => some (digitsVal ds, r)
      | _ => none
  | _ => none

/-- Match the decimal pattern `9\((\d+)\)V9\((\d+)\)` at this position. -/
def decAt (cs : List Char) : Option (Nat × Nat) :=
  match cs with
  | '9' :: rest =>
    match matchNumAt rest with
    | some (p, 'V' :: '9' :: rest2) =>
      match matchNumAt rest2 with
      | some (s, _) => some (p, s)
      | none => none
    | _ => none
  | _ => none

/-- Match the integer pattern `9\((\d+)\)` at this position. -/
def intAt (cs : List Char) : Option Nat :=
  match cs with
  | '9' :: rest => (matchNumAt rest).map (fun r => r.1)
  | _ => none

/-- Match the character pattern `[XA]\((\d+)\)` at this position. -/
def chrAt (cs : List Char) : Option Nat :=
  match cs with
  | c :: rest =>
    if c == 'X' || c == 'A' then (matchNumAt rest).map (fun r => r.1) else none
  | [] => none

/-- `re.search`: try the position matcher at every position, left to right. -/
def searchIt {α : Type} (f : List Char → Option α) : List Char → Option α
  | [] => f []
  | c :: cs =>
    match f (c :: cs) with
    | some a => some a
    | none => searchIt f cs

/-- Character branch and fallback of `_parse_pic` (source lines 78-84). -/
def picChr (p : List Char) : String × Nat :=
  match searchIt chrAt p with
  | some n => ("VARCHAR(" ++ Nat.repr n ++ ")", n)
  | none => ("VARCHAR(255)", 255)

/-- Integer branch of `_parse_pic` (source lines 72-76), falling through to
the character branch. -/
def picInt (p : List Char) : String × Nat :=
  match searchIt intAt p with
  | some n => ((if 9 < n then "BIGINT" else "INTEGER"), n)
  | none => picChr p

/-- `CopybookParser._parse_pic` (source lines 62-84): normalize, then try
decimal (only when a `V` is present), integer, character, fallback. -/
def parsePic (pic : String) : String × Nat :=
  match (if (normPic pic.data).contains 'V' then searchIt decAt (normPic pic.data) else none) with
  | some r => ("DECIMAL(" ++ Nat.repr (r.1 + r.2) ++ "," ++ Nat.repr r.2 ++ ")", r.1 + r.2)
  | none => picInt (normPic pic.data)

/-! ### The hierarchy resolver and `parse` -/

/-- One emitted field (the Python `Field` dataclass; `pic` is always present
on emitted fields). -/
structure Field where
  level : Nat
  name : String
  pic : String
  sql_type : String
  length : Nat
  parent : Option String
deriving DecidableEq

/-- `while self.parent_stack and self.parent_stack[-1][0] >= level:
self.parent_stack.pop()` (source lines 40-41).  The list head is the stack
top. -/
def popGE (lvl : Nat) : List (Nat × String) → List (Nat × String)
  | [] => []
  | e :: rest => if lvl ≤ e.1 then popGE lvl rest else e :: rest

/-- The field built at a field-declaration line, given the stack before the
line (source lines 43, 49-58): pop, read the parent from the new top,
interpret the PIC clause. -/
def mkF (s : List (Nat × String)) (l : Nat) (n p : String) : Field :=
  { level := l, name := n, pic := p,
    sql_type := (parsePic p).1, length := (parsePic p).2,
    parent := (popGE l s).head?.map (fun e => e.2) }

/-- Stack transition of one classified line. -/
def stepStack (s : List (Nat × String)) : LineClass → List (Nat × String)
  | .skip => s
  | .group l n => (l, n) :: popGE l s
  | .fieldDecl l _ _ => popGE l s

/-- Full state transition of one classified line: the stack and the
accumulated field list. -/
def stepSt (st : List (Nat × String) × List Field) (d : LineClass) :
    List (Nat × String) × List Field :=
  match d with
  | .skip => st
  | .group l n => ((l, n) :: popGE l st.1, st.2)
  | .fieldDecl l n p => (popGE l st.1, st.2 ++ [mkF st.1 l n p])

/-- Stack after scanning a list of classified lines. -/
def stackAfter (ds : List LineClass) : List (Nat × String) :=
  ds.foldl stepStack []

/-- Fields emitted after scanning a list of classified lines. -/
def fieldsAfter (ds : List LineClass) : List Field :=
  (ds.foldl stepSt ([], [])).2

/-- `CopybookParser.parse` (source lines 22-60). -/
def parseCB (content : String) : List Field :=
  fieldsAfter (declsOf content)

/-! ### The DDL generator -/

/-- `f.name.lower().replace('-', '_')` (source line 90). -/
def colName (n : String) : String :=
  String.mk (n.data.map (fun c => if c == '-' then '_' else c.toLower))

/-- `CopybookParser.generate_ddl` (source lines 86-93), with the column list
accumulated by the loop and joined with `",\n"`. -/
def generate_ddl (fields : List Field) (table_name : String) : String :=
  "CREATE TABLE bronze." ++ table_name ++ " (\n"
    ++ String.intercalate ",\n"
        (fields.foldl (fun acc f => acc ++ ["    " ++ colName f.name ++ " " ++ f.sql_type]) [])
    ++ "\n);"

/-- The mutable state of a `CopybookParser` instance (source lines 18-20). -/
structure CopybookParserSt where
  fields : List Field
  parent_stack : List (Nat × String)

/-- `CopybookParser.parse` as a method: reset `self.fields` and
`self.parent_stack` (source lines 23-24), then scan; returns the updated
instance and the result. -/
def CopybookParserSt.parse (self : CopybookParserSt) (content : String) :
    CopybookParserSt × List Field :=
  let r := (declsOf content).foldl stepSt ([], [])
  ({ fields := r.2, parent_stack := r.1 }, r.2)

/-- `CopybookParser.generate_ddl` as a method: reads `self.fields`. -/
def CopybookParserSt.generate_ddl (self : CopybookParserSt) (table_name : String) : String :=
  Copybook.generate_ddl self.fields table_name

/-! ### Auxiliary notions used by the statements -/

/-- The level of a classified line, when it has one. -/
def levelOf : LineClass → Option Nat
  | .skip => none
  | .group l _ => some l
  | .fieldDecl l _ _ => some l

/-- A later line does not close a group at level `l`: its level, if it has
one, is strictly greater than `l`. -/
def ClosesAbove (l : Nat) (d : LineClass) : Prop :=
  ∀ m, levelOf d = some m → l < m

/-- A group declaration that is still open at the end of the scanned list:
it occurs in the list and every later declaration has a strictly greater
level. -/
def OpenGroup (ds : List LineClass) (g : Nat × String) : Prop :=
  ∃ pre post, ds = pre ++ LineClass.group g.1 g.2 :: post ∧ ∀ d ∈ post, ClosesAbove g.1 d

/-- The stack invariant: levels strictly increase from bottom to top, i.e.
strictly decrease from the list head (the top). -/
def Decreasing (s : List (Nat × String)) : Prop :=
  List.Pairwise (fun a b : Nat × String => b.1 < a.1) s

/-- Whether a classified line is a field declaration. -/
def isFieldLC : LineClass → Bool
  | .fieldDecl _ _ _ => true
  | _ => false

/-- Whether a classified line is not skipped. -/
def notSkip : LineClass → Bool
  | .skip => false
  | _ => true

/-- Modelled from the claim's wording (claim C4): the name of the nearest
group declaration preceding the current position in the scan whose level is
strictly below `lvl`.  Used only to compare the spec's description with the
parser's actual parent assignment. -/
def specNearestSmallerGroup (ds : List LineClass) (lvl : Nat) : Option String :=
  match ds.reverse.find? (fun d =>
      match d with
      | LineClass.group gl _ => decide (gl < lvl)
      | _ => false) with
  | some (LineClass.group _ gn) => some gn
  | _ => none

/-- The six-line example copybook of the specification's end-to-end
scenario. -/
def exCopybook : String :=
  "01  CUSTOMER-RECORD.\n    05  CUSTOMER-ID       PIC 9(10).\n    05  CUSTOMER-NAME.\n        10  FIRST-NAME    PIC X(30).\n        10  LAST-NAME     PIC X(30).\n    05  ACCOUNT-BALANCE   PIC S9(13)V99."

end Copybook

namespace Copybook

/-! ## Theorems -/

/-- Claim C1 (evaluation at the failing input): on the six-line example
copybook, `parse` returns exactly four fields — CUSTOMER-ID (parent
CUSTOMER-RECORD, BIGINT, length 10), FIRST-NAME and LAST-NAME (parent
CUSTOMER-NAME, VARCHAR(30)) — but ACCOUNT-BALANCE is mapped to BIGINT with
length 13, not DECIMAL(15,2) with length 15 as the claim states, because
the decimal regex `9\((\d+)\)V9\((\d+)\)` does not match `S9(13)V99`.
The generated DDL lists the four columns, lower-cased with hyphens
replaced by underscores, in declaration order, with `account_balance
BIGINT`. -/
theorem example_copybook_eval :
    parseCB exCopybook =
      [⟨5, "CUSTOMER-ID", "9(10)", "BIGINT", 10, some "CUSTOMER-RECORD"⟩,
       ⟨10, "FIRST-NAME", "X(30)", "VARCHAR(30)", 30, some "CUSTOMER-NAME"⟩,
       ⟨10, "LAST-NAME", "X(30)", "VARCHAR(30)", 30, some "CUSTOMER-NAME"⟩,
       ⟨5, "ACCOUNT-BALANCE", "S9(13)V99", "BIGINT", 13, some "CUSTOMER-RECORD"⟩]
    ∧ generate_ddl (parseCB exCopybook) "customer" =
      "CREATE TABLE bronze.customer (\n    customer_id BIGINT,\n    first_name VARCHAR(30),\n    last_name VARCHAR(30),\n    account_balance BIGINT\n);" := by
  decide

/-- Claim C2 (evaluation at the failing input): `9(5)V99` — the example
named both by the claim and by the code's own comment on the decimal
branch — does not match the decimal regex (the scale digits are not
parenthesized) and falls through to the integer rule, giving INTEGER with
length 5.  Clauses literally of the form `9(P)V9(S)` do get
`DECIMAL(P+S,S)`: `9(5)V9(2)` gives DECIMAL(7,2) with length 7.  The
example copybook's `S9(13)V99` likewise falls through, to BIGINT with
length 13. -/
theorem pic_decimal_comment_eval :
    parsePic "9(5)V99" = ("INTEGER", 5)
    ∧ parsePic "9(5)V9(2)" = ("DECIMAL(7,2)", 7)
    ∧ parsePic "S9(13)V99" = ("BIGINT", 13) := by
  decide

/-- Claim C3 counterexample: `S9(4)COMP` contains the substring `9(4)`, so
the unanchored integer search matches and the interpreter returns INTEGER
with length 4 — not VARCHAR(255) with length 255 as the claim states. -/
theorem pic_s94comp_ce :
    parsePic "S9(4)COMP" = ("INTEGER", 4)
    ∧ parsePic "S9(4)COMP" ≠ ("VARCHAR(255)", 255) := by
  decide

/-- Claim C4 counterexample: in the input `01 A. / 03 B. / 03 F1 PIC X(1).
/ 04 F2 PIC X(1).`, the group B (level 3) is the nearest group declaration
preceding F2 (level 4) with a strictly smaller level, yet F2's parent is A:
B was popped from the stack by the equal-level field F1, so it no longer
survives when F2 is processed. -/
theorem parent_nearest_ce :
    declsOf "01 A.\n03 B.\n03 F1 PIC X(1).\n04 F2 PIC X(1)." =
      [LineClass.group 1 "A", LineClass.group 3 "B",
       LineClass.fieldDecl 3 "F1" "X(1)", LineClass.fieldDecl 4 "F2" "X(1)"]
    ∧ parseCB "01 A.\n03 B.\n03 F1 PIC X(1).\n04 F2 PIC X(1)." =
      [⟨3, "F1", "X(1)", "VARCHAR(1)", 1, some "A"⟩,
       ⟨4, "F2", "X(1)", "VARCHAR(1)", 1, some "A"⟩]
    ∧ specNearestSmallerGroup
        [LineClass.group 1 "A", LineClass.group 3 "B", LineClass.fieldDecl 3 "F1" "X(1)"] 4 =
        some "B"
    ∧ (some "A" : Option String) ≠ some "B" := by
  decide

/-- Claim C6 counterexample: the line `05 customer-id PIC X(5).` is
non-blank, is not a comment, and its name token contains lowercase
letters; the claim says such a line is skipped, but because the whole
pattern is compiled with `re.IGNORECASE` the character class `[A-Z0-9\-]`
also matches lowercase letters, so the line is classified as a field
declaration and contributes a Field. -/
theorem classify_lowercase_ce :
    pyStrip ("05 customer-id PIC X(5).".data) ≠ []
    ∧ (pyStrip ("05 customer-id PIC X(5).".data)).head? ≠ some '*'
    ∧ ('c' ∈ "customer-id".data ∧ 'c'.isLower = true)
    ∧ classifyLine ("05 customer-id PIC X(5).".data) = LineClass.fieldDecl 5 "customer-id" "X(5)"
    ∧ parseCB "05 customer-id PIC X(5)." =
        [⟨5, "customer-id", "X(5)", "VARCHAR(5)", 5, none⟩] := by
  decide

/-- Claim C10: `parse` resets the instance's field list and parent stack on
entry, so its result — and the DDL generated from the instance afterwards —
depends only on the current input, never on earlier calls: any two
instances (whatever their prior state) give equal results on equal inputs,
and re-parsing on the same instance gives the same field list. -/
theorem parser_state_independent :
    ∀ (p q : CopybookParserSt) (content tn : String),
      (p.parse content).2 = (q.parse content).2
      ∧ (p.parse content).2 = parseCB content
      ∧ ((p.parse content).1.generate_ddl tn) = ((q.parse content).1.generate_ddl tn)
      ∧ (((p.parse content).1.parse content)).2 = (p.parse content).2 :=
  fun _ _ _ _ => ⟨rfl, rfl, rfl, rfl⟩

end Copybook

namespace Copybook

/-! ### Helper lemmas -/

/-- The stack component of the full fold is the stack-only fold. -/
theorem foldl_stepSt_fst (ds : List LineClass) (st : List (Nat × String) × List Field) :
    (ds.foldl stepSt st).1 = ds.foldl stepStack st.1 := by
  induction ds generalizing st with
  | nil => rfl
  | cons d rest ih =>
    rw [List.foldl_cons, List.foldl_cons, ih]
    congr 1
    cases d <;> rfl

/-- Each field-declaration line appends exactly one field. -/
theorem fields_length_aux (ds : List LineClass) (st : List (Nat × String) × List Field) :
    ((ds.foldl stepSt st).2).length = st.2.length + ds.countP isFieldLC := by
  induction ds generalizing st with
  | nil => simp
  | cons d rest ih =>
    rw [List.foldl_cons, ih]
    cases d <;> simp [stepSt, isFieldLC, List.countP_cons] <;> omega

/-- Skipped lines contribute nothing to the fold. -/
theorem skip_filter_aux (ds : List LineClass) (st : List (Nat × String) × List Field) :
    ds.foldl stepSt st = (ds.filter notSkip).foldl stepSt st := by
  induction ds generalizing st with
  | nil => rfl
  | cons d rest ih =>
    cases d with
    | skip =>
      rw [List.foldl_cons]
      simpa [List.filter_cons, notSkip, stepSt] using ih st
    | group l n =>
      rw [List.foldl_cons]
      simpa [List.filter_cons, notSkip] using ih (stepSt st (LineClass.group l n))
    | fieldDecl l n p =>
      rw [List.foldl_cons]
      simpa [List.filter_cons, notSkip] using ih (stepSt st (LineClass.fieldDecl l n p))

/-- The loop-accumulated column list is the map over the field list. -/
theorem foldl_cols (fs : List Field) (acc : List String) :
    fs.foldl (fun a f => a ++ ["    " ++ colName f.name ++ " " ++ f.sql_type]) acc
      = acc ++ fs.map (fun f => "    " ++ colName f.name ++ " " ++ f.sql_type) := by
  induction fs generalizing acc with
  | nil => simp
  | cons f rest ih => simp [ih]

/-! ### Claim theorems (second batch) -/

/-- Claim C9: for every input, the number of fields returned by `parse`
equals the number of input lines classified as field declarations; group
declarations and skipped lines contribute no field. -/
theorem parse_field_count :
    ∀ content : String, (parseCB content).length = (declsOf content).countP isFieldLC := by
  intro content
  unfold parseCB fieldsAfter
  rw [fields_length_aux]
  simp

/-- Claim C5: for every input string and table name, `parse` and
`generate_ddl` are total — they always return a field list and a DDL
string (the embedding is a total function; there is no failure path in the
code).  Lines classified as Skip are silently dropped: the scan over all
lines equals the scan over the non-skipped lines only.  The PIC
interpreter is total as well: every clause gets some type and length. -/
theorem parse_never_fails :
    ∀ (content tn : String),
      (∃ fs, parseCB content = fs)
      ∧ (∃ d, generate_ddl (parseCB content) tn = d)
      ∧ parseCB content = (((declsOf content).filter notSkip).foldl stepSt ([], [])).2
      ∧ (∀ p : String, ∃ t len, parsePic p = (t, len)) := by
  intro content tn
  refine ⟨⟨_, rfl⟩, ⟨_, rfl⟩, ?_, fun p => ⟨_, _, rfl⟩⟩
  unfold parseCB fieldsAfter
  rw [skip_filter_aux]

/-- Claim C8: `generate_ddl` renders each column as four spaces, the field
name lower-cased with every hyphen replaced by underscore, a space, and
the SQL type; joins the columns in declaration order with `",\n"`; and
wraps them in `CREATE TABLE bronze.<table_name> (\n ... \n);` with the
table name inserted verbatim.  Empty input parses to no fields and the
DDL then has an empty column body. -/
theorem generate_ddl_format :
    ∀ (fs : List Field) (tn : String),
      generate_ddl fs tn =
        "CREATE TABLE bronze." ++ tn ++ " (\n"
          ++ String.intercalate ",\n"
              (fs.map (fun f =>
                "    " ++ String.mk (f.name.data.map (fun c => if c == '-' then '_' else c.toLower))
                  ++ " " ++ f.sql_type))
          ++ "\n);"
      ∧ parseCB "" = []
      ∧ generate_ddl [] tn = "CREATE TABLE bronze." ++ tn ++ " (\n" ++ "\n);" := by
  intro fs tn
  refine ⟨?_, by decide, ?_⟩
  · unfold generate_ddl
    rw [foldl_cols, List.nil_append]
    rfl
  · unfold generate_ddl
    rw [show String.intercalate ",\n" (([] : List Field).foldl
          (fun acc f => acc ++ ["    " ++ colName f.name ++ " " ++ f.sql_type]) []) = "" from rfl,
        String.append_empty]

/-- Claim C7: whenever the decimal rule does not apply (no `V` in the
normalized clause, or the decimal search fails) and the integer search
finds `9(N)`, the interpreter returns length N with type BIGINT when
N > 9 and INTEGER otherwise; in particular `9(10)` gives BIGINT with
length 10 and `9(9)` gives INTEGER with length 9. -/
theorem pic_integer_rule :
    (∀ (pic : String) (n : Nat),
      ((normPic pic.data).contains 'V' = true → searchIt decAt (normPic pic.data) = none) →
      searchIt intAt (normPic pic.data) = some n →
      parsePic pic = ((if 9 < n then "BIGINT" else "INTEGER"), n))
    ∧ parsePic "9(10)" = ("BIGINT", 10)
    ∧ parsePic "9(9)" = ("INTEGER", 9) := by
  refine ⟨?_, by decide, by decide⟩
  intro pic n h1 h2
  have hd : (if (normPic pic.data).contains 'V' then searchIt decAt (normPic pic.data) else none)
      = none := by
    cases hv : (normPic pic.data).contains 'V' with
    | false => simp
    | true => simp [h1 hv]
  unfold parsePic
  rw [hd]
  show picInt (normPic pic.data) = ((if 9 < n then "BIGINT" else "INTEGER"), n)
  unfold picInt
  rw [h2]

/-- Witness for claim C7's theorem at the concrete clause `9(10)`. -/
theorem pic_integer_rule_witness :
    parsePic "9(10)" = ("BIGINT", 10) :=
  pic_integer_rule.1 "9(10)" 10 (by decide) (by decide)

/-- Claim C3 (amended): every PIC clause on which the decimal, integer and
character searches all fail yields VARCHAR(255) with length 255, and the
interpreter is total (never fails).  `S9(4)COMP`, however, is matched by
the integer search (substring `9(4)`) and yields INTEGER with length 4; a
clause matching none of the patterns, such as `COMP-3`, does get the
VARCHAR(255) default. -/
theorem pic_fallback :
    (∀ pic : String,
      searchIt decAt (normPic pic.data) = none →
      searchIt intAt (normPic pic.data) = none →
      searchIt chrAt (normPic pic.data) = none →
      parsePic pic = ("VARCHAR(255)", 255))
    ∧ parsePic "S9(4)COMP" = ("INTEGER", 4)
    ∧ parsePic "COMP-3" = ("VARCHAR(255)", 255) := by
  refine ⟨?_, by decide, by decide⟩
  intro pic h1 h2 h3
  have hd : (if (normPic pic.data).contains 'V' then searchIt decAt (normPic pic.data) else none)
      = none := by
    cases hv : (normPic pic.data).contains 'V' with
    | false => simp
    | true => simp [h1]
  unfold parsePic
  rw [hd]
  show picInt (normPic pic.data) = ("VARCHAR(255)", 255)
  unfold picInt
  rw [h2]
  show picChr (normPic pic.data) = ("VARCHAR(255)", 255)
  unfold picChr
  rw [h3]

/-- Witness for claim C3's theorem at the concrete clause `COMP-3`. -/
theorem pic_fallback_witness :
    parsePic "COMP-3" = ("VARCHAR(255)", 255) :=
  pic_fallback.1 "COMP-3" (by decide) (by decide) (by decide)

end Copybook

namespace Copybook

/-- The name captured by a successful line match is a nonempty run of name
characters. -/
theorem matchDecl_name (cs : List Char) (lvl : Nat) (n : String) (pk : Option String) :
    matchDecl cs = some (lvl, n, pk) → n.data ≠ [] ∧ ∀ c ∈ n.data, nameChar c = true := by
  intro h
  unfold matchDecl at h
  split at h
  next d1 d2 rest heq =>
    split at h
    next hdig =>
      simp only [afterLevel] at h
      split at h
      next => exact absurd h (by simp)
      next c rest' =>
        split at h
        next hsp =>
          split at h
          next hne => exact absurd h (by simp)
          next hne =>
            rw [Option.some.injEq, Prod.mk.injEq, Prod.mk.injEq] at h
            obtain ⟨-, hn, -⟩ := h
            subst hn
            exact ⟨by simpa using hne, fun c hc => List.mem_takeWhile_imp hc⟩
        next => exact absurd h (by simp)
    next => exact absurd h (by simp)
  next => exact absurd h (by simp)

/-- Claim C6 (amended): a line is classified as a declaration only if it
matches the pattern, whose name token — because the whole pattern is
compiled with `re.IGNORECASE` — consists of letters of either case,
digits, and hyphens; a name token containing lowercase letters still
matches.  Any non-matching line is skipped, contributing no field and no
group. -/
theorem classify_name_charset :
    ∀ line : List Char,
      (∀ lvl n p, classifyLine line = LineClass.fieldDecl lvl n p →
        n.data ≠ [] ∧ ∀ c ∈ n.data, nameChar c = true)
      ∧ (∀ lvl n, classifyLine line = LineClass.group lvl n →
        n.data ≠ [] ∧ ∀ c ∈ n.data, nameChar c = true) := by
  intro line
  constructor
  · intro lvl n p h
    simp only [classifyLine] at h
    split at h
    next => exact absurd h (by simp)
    next =>
      split at h
      next => exact absurd h (by simp)
      next =>
        split at h
        next => exact absurd h (by simp)
        next => exact absurd h (by simp)
        next lvl0 n0 p0 heq =>
          rw [LineClass.fieldDecl.injEq] at h
          obtain ⟨rfl, rfl, rfl⟩ := h
          exact matchDecl_name line lvl0 n0 (some p0) heq
  · intro lvl n h
    simp only [classifyLine] at h
    split at h
    next => exact absurd h (by simp)
    next =>
      split at h
      next => exact absurd h (by simp)
      next =>
        split at h
        next => exact absurd h (by simp)
        next lvl0 n0 heq =>
          rw [LineClass.group.injEq] at h
          obtain ⟨rfl, rfl⟩ := h
          exact matchDecl_name line lvl0 n0 none heq
        next => exact absurd h (by simp)

/-- Witness for claim C6's theorem: the line `05 AB-1 PIC X(2).` is
classified as a field declaration and its name token is nonempty. -/
theorem classify_name_charset_witness :
    ("AB-1" : String).data ≠ [] :=
  ((classify_name_charset ("05 AB-1 PIC X(2).".data)).1 5 "AB-1" "X(2)" (by decide)).1

end Copybook

namespace Copybook

/-! ### Stack lemmas for the hierarchy resolver -/

/-- Popping only removes entries. -/
theorem mem_of_mem_popGE {lvl : Nat} {s : List (Nat × String)} {g : Nat × String}
    (h : g ∈ popGE lvl s) : g ∈ s := by
  induction s with
  | nil => simpa [popGE] using h
  | cons e rest ih =>
    rw [popGE] at h
    split at h
    · exact List.mem_cons_of_mem e (ih h)
    · exact h

/-- An entry below the popping level survives the pop. -/
theorem mem_popGE_of_lt {lvl : Nat} {s : List (Nat × String)} {g : Nat × String}
    (hmem : g ∈ s) (hlt : g.1 < lvl) : g ∈ popGE lvl s := by
  induction s with
  | nil => simpa using hmem
  | cons e rest ih =>
    rw [popGE]
    split
    next hle =>
      rcases List.mem_cons.mp hmem with rfl | hmem'
      · omega
      · exact ih hmem'
    next => exact hmem

/-- The top of the popped stack is below the popping level. -/
theorem popGE_head_lt {lvl : Nat} {s : List (Nat × String)} {g : Nat × String}
    (h : (popGE lvl s).head? = some g) : g.1 < lvl := by
  induction s with
  | nil => simp [popGE] at h
  | cons e rest ih =>
    rw [popGE] at h
    split at h
    next => exact ih h
    next hle =>
      rw [List.head?_cons, Option.some.injEq] at h
      subst h
      omega

/-- Popping preserves the strict-decrease invariant. -/
theorem popGE_pairwise {lvl : Nat} {s : List (Nat × String)}
    (h : Decreasing s) : Decreasing (popGE lvl s) := by
  induction s with
  | nil => simpa [popGE] using h
  | cons e rest ih =>
    rw [popGE]
    split
    · exact ih (List.Pairwise.of_cons h)
    · exact h

/-- Under the invariant, every surviving entry is below the popping level. -/
theorem lt_of_mem_popGE {lvl : Nat} {s : List (Nat × String)} {g : Nat × String}
    (hp : Decreasing s) (h : g ∈ popGE lvl s) : g.1 < lvl := by
  induction s with
  | nil => simp [popGE] at h
  | cons e rest ih =>
    rw [popGE] at h
    split at h
    next => exact ih (List.Pairwise.of_cons hp) h
    next hle =>
      rcases List.mem_cons.mp h with rfl | hmem
      · omega
      · have := (List.pairwise_cons.mp hp).1 g hmem
        omega

/-- Popping twice at the same level is the same as popping once. -/
theorem popGE_idem (lvl : Nat) (s : List (Nat × String)) :
    popGE lvl (popGE lvl s) = popGE lvl s := by
  induction s with
  | nil => rfl
  | cons e rest ih =>
    rw [popGE]
    split
    · exact ih
    next hle => rw [popGE, if_neg hle]

/-- One scan step preserves the strict-decrease invariant. -/
theorem stepStack_pairwise {s : List (Nat × String)} (h : Decreasing s) (d : LineClass) :
    Decreasing (stepStack s d) := by
  cases d with
  | skip => exact h
  | group l n =>
    rw [stepStack]
    refine List.pairwise_cons.mpr ⟨fun g hg => lt_of_mem_popGE h hg, popGE_pairwise h⟩
  | fieldDecl l n p => exact popGE_pairwise h

/-- The stack is strictly decreasing from the top after any scan. -/
theorem stack_foldl_pairwise (ds : List LineClass) (s : List (Nat × String))
    (h : Decreasing s) : Decreasing (ds.foldl stepStack s) := by
  induction ds generalizing s with
  | nil => exact h
  | cons d rest ih => exact ih (stepStack s d) (stepStack_pairwise h d)

/-- The stack invariant holds after scanning any classified line list. -/
theorem stackAfter_pairwise (ds : List LineClass) : Decreasing (stackAfter ds) :=
  stack_foldl_pairwise ds [] List.Pairwise.nil

/-- Skipped lines leave the stack unchanged. -/
theorem foldl_stepStack_skips (mid : List LineClass) (s : List (Nat × String))
    (h : ∀ d ∈ mid, d = LineClass.skip) : mid.foldl stepStack s = s := by
  induction mid with
  | nil => rfl
  | cons d rest ih =>
    have hd := h d (List.mem_cons_self d rest)
    subst hd
    exact ih (fun d hd => h d (List.mem_cons_of_mem _ hd))

/-- Scanning an appended list continues from the intermediate stack. -/
theorem stackAfter_append (ds ds' : List LineClass) :
    stackAfter (ds ++ ds') = ds'.foldl stepStack (stackAfter ds) := by
  unfold stackAfter
  rw [List.foldl_append]

/-- Splitting a snoc list at an occurrence of an element. -/
theorem append_singleton_cases {α : Type} {ds pre post : List α} {d x : α}
    (h : ds ++ [d] = pre ++ x :: post) :
    (pre = ds ∧ x = d ∧ post = []) ∨
    ∃ post', post = post' ++ [d] ∧ ds = pre ++ x :: post' := by
  rcases List.eq_nil_or_concat post with rfl | ⟨q, a, rfl⟩
  · left
    have := List.append_inj' h (by rfl)
    obtain ⟨h1, h2⟩ := this
    rw [List.cons.injEq] at h2
    exact ⟨h1.symm, h2.1.symm, rfl⟩
  · right
    rw [List.concat_eq_append] at h
    rw [show pre ++ x :: (q ++ [a]) = (pre ++ x :: q) ++ [a] by simp] at h
    obtain ⟨h1, h2⟩ := List.append_inj' h (by rfl)
    rw [List.cons.injEq] at h2
    refine ⟨q, ?_, h1⟩
    rw [List.concat_eq_append, h2.1]

end Copybook

namespace Copybook

/-- No group is open in the empty scan. -/
theorem openGroup_nil (g : Nat × String) : ¬ OpenGroup [] g := by
  rintro ⟨pre, post, h, -⟩
  exact absurd h.symm (by simp)

/-- The stack after a scan contains exactly the still-open groups: those
group declarations followed only by declarations at strictly greater
levels. -/
theorem stack_mem_iff (ds : List LineClass) (g : Nat × String) :
    g ∈ stackAfter ds ↔ OpenGroup ds g := by
  obtain ⟨gl, gn⟩ := g
  induction ds using List.reverseRecOn with
  | nil =>
    simp only [stackAfter, List.foldl_nil, List.not_mem_nil, false_iff]
    exact openGroup_nil (gl, gn)
  | append_singleton ds d ih =>
    have hS : stackAfter (ds ++ [d]) = stepStack (stackAfter ds) d := by
      rw [stackAfter_append]
      rfl
    have hp : Decreasing (stackAfter ds) := stackAfter_pairwise ds
    rw [hS]
    cases d with
    | skip =>
      rw [show stepStack (stackAfter ds) LineClass.skip = stackAfter ds from rfl, ih]
      constructor
      · rintro ⟨pre, post, hsplit, hcond⟩
        refine ⟨pre, post ++ [LineClass.skip], by rw [hsplit, List.append_assoc, List.cons_append], ?_⟩
        intro d hd
        rcases List.mem_append.mp hd with hd | hd
        · exact hcond d hd
        · rw [List.mem_singleton.mp hd]
          intro m hm
          simp [levelOf] at hm
      · rintro ⟨pre, post, hsplit, hcond⟩
        rcases append_singleton_cases hsplit with ⟨hpre, hx, hpost⟩ | ⟨post', hpost, hds⟩
        · exact absurd hx (by simp)
        · exact ⟨pre, post', hds, fun d hd => hcond d (hpost ▸ List.mem_append_left _ hd)⟩
    | group l n =>
      rw [show stepStack (stackAfter ds) (LineClass.group l n)
            = (l, n) :: popGE l (stackAfter ds) from rfl]
      constructor
      · intro hmem
        rcases List.mem_cons.mp hmem with heq | hmem'
        · rw [Prod.mk.injEq] at heq
          obtain ⟨rfl, rfl⟩ := heq
          exact ⟨ds, [], rfl, by intro d hd; simp at hd⟩
        · have hgs : (gl, gn) ∈ stackAfter ds := mem_of_mem_popGE hmem'
          have hlt : gl < l := lt_of_mem_popGE hp hmem'
          obtain ⟨pre, post, hsplit, hcond⟩ := ih.mp hgs
          refine ⟨pre, post ++ [LineClass.group l n], by rw [hsplit, List.append_assoc, List.cons_append], ?_⟩
          intro d hd
          rcases List.mem_append.mp hd with hd | hd
          · exact hcond d hd
          · rw [List.mem_singleton.mp hd]
            intro m hm
            simp only [levelOf, Option.some.injEq] at hm
            omega
      · rintro ⟨pre, post, hsplit, hcond⟩
        rcases append_singleton_cases hsplit with ⟨hpre, hx, hpost⟩ | ⟨post', hpost, hds⟩
        · rw [LineClass.group.injEq] at hx
          obtain ⟨rfl, rfl⟩ := hx
          exact List.mem_cons_self _ _
        · have hopen : OpenGroup ds (gl, gn) :=
            ⟨pre, post', hds, fun d hd => hcond d (hpost ▸ List.mem_append_left _ hd)⟩
          have hin : (gl, gn) ∈ stackAfter ds := ih.mpr hopen
          have hcl : ClosesAbove gl (LineClass.group l n) :=
            hcond _ (hpost ▸ List.mem_append_right _ (List.mem_singleton_self _))
          have hlt : gl < l := hcl l rfl
          exact List.mem_cons_of_mem _ (mem_popGE_of_lt hin hlt)
    | fieldDecl l n p =>
      rw [show stepStack (stackAfter ds) (LineClass.fieldDecl l n p)
            = popGE l (stackAfter ds) from rfl]
      constructor
      · intro hmem
        have hgs := mem_of_mem_popGE hmem
        have hlt := lt_of_mem_popGE hp hmem
        obtain ⟨pre, post, hsplit, hcond⟩ := ih.mp hgs
        refine ⟨pre, post ++ [LineClass.fieldDecl l n p], by rw [hsplit, List.append_assoc, List.cons_append], ?_⟩
        intro d hd
        rcases List.mem_append.mp hd with hd | hd
        · exact hcond d hd
        · rw [List.mem_singleton.mp hd]
          intro m hm
          simp only [levelOf, Option.some.injEq] at hm
          omega
      · rintro ⟨pre, post, hsplit, hcond⟩
        rcases append_singleton_cases hsplit with ⟨hpre, hx, hpost⟩ | ⟨post', hpost, hds⟩
        · exact absurd hx (by simp)
        · have hopen : OpenGroup ds (gl, gn) :=
            ⟨pre, post', hds, fun d hd => hcond d (hpost ▸ List.mem_append_left _ hd)⟩
          have hin := ih.mpr hopen
          have hcl : ClosesAbove gl (LineClass.fieldDecl l n p) :=
            hcond _ (hpost ▸ List.mem_append_right _ (List.mem_singleton_self _))
          exact mem_popGE_of_lt hin (hcl l rfl)

end Copybook

namespace Copybook

/-- A field-declaration line appends exactly the field built from the
stack reached before it. -/
theorem fieldsAfter_snoc_field (pre : List LineClass) (l : Nat) (n p : String) :
    fieldsAfter (pre ++ [LineClass.fieldDecl l n p])
      = fieldsAfter pre ++ [mkF (stackAfter pre) l n p] := by
  unfold fieldsAfter
  rw [List.foldl_append, List.foldl_cons, List.foldl_nil]
  show (pre.foldl stepSt ([], [])).2 ++ [mkF (pre.foldl stepSt ([], [])).1 l n p] = _
  rw [foldl_stepSt_fst]
  rfl

/-- Claim C4 (amended): throughout the scan the stack's levels strictly
increase from bottom to top; at every field-declaration line the entries
at a level at or above the line's level are popped, the emitted field's
parent is read from the resulting top, and that parent — when present —
is a still-open preceding group declaration of strictly smaller level,
maximal in level among the still-open groups below the line's level (no
still-open smaller-level group is missed); when no such group remains the
parent is absent; later still-open groups always have strictly greater
levels than earlier ones (so the maximal-level open group is also the
nearest); and consecutive same-level field declarations separated only by
skipped lines receive the same parent. -/
theorem parse_parent_invariant :
    ∀ content : String,
      (∀ k, Decreasing (stackAfter ((declsOf content).take k)))
      ∧ (∀ pre l n p post, declsOf content = pre ++ LineClass.fieldDecl l n p :: post →
          fieldsAfter (pre ++ [LineClass.fieldDecl l n p])
              = fieldsAfter pre ++ [mkF (stackAfter pre) l n p]
          ∧ (∀ g ∈ popGE l (stackAfter pre), g.1 < l)
          ∧ (∀ g, (popGE l (stackAfter pre)).head? = some g →
              (mkF (stackAfter pre) l n p).parent = some g.2
              ∧ OpenGroup pre g ∧ g.1 < l
              ∧ (∀ h, OpenGroup pre h → h.1 < l → h.1 ≤ g.1))
          ∧ ((popGE l (stackAfter pre)).head? = none →
              (mkF (stackAfter pre) l n p).parent = none
              ∧ ∀ h, OpenGroup pre h → l ≤ h.1))
      ∧ (∀ gl hl hn mid post2,
          (∀ d ∈ mid ++ LineClass.group hl hn :: post2, ClosesAbove gl d) → gl < hl)
      ∧ (∀ pre l n1 p1 mid n2 p2 post,
          declsOf content
              = pre ++ LineClass.fieldDecl l n1 p1 :: mid ++ LineClass.fieldDecl l n2 p2 :: post →
          (∀ d ∈ mid, d = LineClass.skip) →
          (mkF (stackAfter (pre ++ LineClass.fieldDecl l n1 p1 :: mid)) l n2 p2).parent
            = (mkF (stackAfter pre) l n1 p1).parent) := by
  intro content
  refine ⟨fun k => stackAfter_pairwise _, ?_, ?_, ?_⟩
  · intro pre l n p post hsplit
    refine ⟨fieldsAfter_snoc_field pre l n p,
            fun g hg => lt_of_mem_popGE (stackAfter_pairwise pre) hg, ?_, ?_⟩
    · intro g hg
      have hmem : g ∈ popGE l (stackAfter pre) := by
        cases hpop : popGE l (stackAfter pre) with
        | nil => rw [hpop] at hg; simp at hg
        | cons a t =>
          rw [hpop] at hg
          rw [List.head?_cons, Option.some.injEq] at hg
          subst hg
          exact List.mem_cons_self _ _
      refine ⟨?_, (stack_mem_iff pre g).mp (mem_of_mem_popGE hmem), popGE_head_lt hg, ?_⟩
      · show (popGE l (stackAfter pre)).head?.map (fun e => e.2) = some g.2
        rw [hg]
        rfl
      · intro h hopen hlt
        have hin : h ∈ stackAfter pre := (stack_mem_iff pre h).mpr hopen
        have hpop2 : h ∈ popGE l (stackAfter pre) := mem_popGE_of_lt hin hlt
        cases hpop : popGE l (stackAfter pre) with
        | nil => rw [hpop] at hg; simp at hg
        | cons a t =>
          rw [hpop] at hg hpop2
          rw [List.head?_cons, Option.some.injEq] at hg
          subst hg
          rcases List.mem_cons.mp hpop2 with rfl | hmem2
          · exact Nat.le_refl _
          · have hpw : Decreasing (popGE l (stackAfter pre)) :=
              popGE_pairwise (stackAfter_pairwise pre)
            rw [hpop] at hpw
            have := (List.pairwise_cons.mp hpw).1 h hmem2
            omega
    · intro hnone
      constructor
      · show (popGE l (stackAfter pre)).head?.map (fun e => e.2) = none
        rw [hnone]
        rfl
      · intro h hopen
        by_contra hcon
        push_neg at hcon
        have hin : h ∈ stackAfter pre := (stack_mem_iff pre h).mpr hopen
        have hmem : h ∈ popGE l (stackAfter pre) := mem_popGE_of_lt hin hcon
        cases hpop : popGE l (stackAfter pre) with
        | nil => rw [hpop] at hmem; simp at hmem
        | cons a t => rw [hpop] at hnone; simp at hnone
  · intro gl hl hn mid post2 hcond
    exact hcond (LineClass.group hl hn)
      (List.mem_append_right _ (List.mem_cons_self _ _)) hl rfl
  · intro pre l n1 p1 mid n2 p2 post hsplit hmid
    have h1 : stackAfter (pre ++ LineClass.fieldDecl l n1 p1 :: mid)
        = popGE l (stackAfter pre) := by
      rw [show pre ++ LineClass.fieldDecl l n1 p1 :: mid
            = (pre ++ [LineClass.fieldDecl l n1 p1]) ++ mid by simp,
          stackAfter_append, foldl_stepStack_skips mid _ hmid, stackAfter_append]
      rfl
    show (popGE l (stackAfter (pre ++ LineClass.fieldDecl l n1 p1 :: mid))).head?.map
          (fun e => e.2)
        = (popGE l (stackAfter pre)).head?.map (fun e => e.2)
    rw [h1, popGE_idem]

/-- Witness for claim C4's theorem: in `01 A. / 05 B PIC X(3).`, the field
B at level 5 receives parent A. -/
theorem parse_parent_invariant_witness :
    (mkF (stackAfter [LineClass.group 1 "A"]) 5 "B" "X(3)").parent = some "A" :=
  ((((parse_parent_invariant "01 A.\n05 B PIC X(3).").2.1)
      [LineClass.group 1 "A"] 5 "B" "X(3)" [] (by decide)).2.2.1 (1, "A") (by decide)).1

end Copybook
